import Mathlib

/-!
Verification development for the family budget application.

The standalone variant (src/script.js) keeps three stores in browser
storage: a salaries object mapping a user name to an amount, a list of
bills, and a list of transactions.  We embed those stores and the
operations on them as pure Lean functions.  JavaScript numbers are
modelled as rationals; a parse result (parseFloat / parseInt) is an
Option, with none standing for NaN; the coercion idiom value-or-default
is modelled with Option.getD.  The React components
(EditableSalaryCard.js, EditableBillCard.js) perform client-side
validation before issuing a request; we embed each validation as a
function from the parsed form inputs to an optional request payload,
none meaning the request is not issued.
-/

namespace BudgetApp

/-- A transaction record as appended by saveExpense in src/script.js:
id from the clock, trimmed description, parsed amount, date timestamp. -/
structure Txn where
  id : ℕ
  description : String
  amount : ℚ
  date : ℕ
  deriving DecidableEq

/-- A bill record as appended by saveBill in src/script.js. -/
structure Bill where
  id : ℕ
  name : String
  amount : ℚ
  dueDay : ℤ
  deriving DecidableEq

/-- The salaries store: a JavaScript object mapping user name to amount,
modelled as an association list whose keys are unique in every state the
program produces. -/
abbrev Salaries := List (String × ℚ)

/-- Object property read, as in salaries[user]. -/
def getSalary : Salaries → String → Option ℚ
  | [], _ => none
  | p :: rest, u => if p.1 = u then some p.2 else getSalary rest u

/-- Object property write, as in salaries[currentSalaryUser] = amount:
an existing key is overwritten in place, a fresh key is appended. -/
def setSalary (s : Salaries) (u : String) (a : ℚ) : Salaries :=
  if (getSalary s u).isSome then
    s.map (fun p => if p.1 = u then (u, a) else p)
  else
    s ++ [(u, a)]

/-- saveSalary from src/script.js lines 155-163: the input is parsed with
parseFloat and coerced to 0 when unparsable, then written unconditionally
to the store.  No validation is performed. -/
def saveSalary (s : Salaries) (u : String) (input : Option ℚ) : Salaries :=
  setSalary s u (input.getD 0)

/-- A sequence of salary updates for one user, applied left to right. -/
def applySalaryUpdates (s : Salaries) (u : String) (as : List ℚ) : Salaries :=
  as.foldl (fun st a => saveSalary st u (some a)) s

/-- The income attributed to one user by updateDashboard, line 53:
salaries.user coerced to 0 when absent. -/
def incomeAttributable (s : Salaries) (u : String) : ℚ :=
  (getSalary s u).getD 0

/-- monthlyIncome from updateDashboard, line 53. -/
def monthlyIncome (s : Salaries) : ℚ :=
  incomeAttributable s "harish" + incomeAttributable s "durga"

/-- The bills reduce from updateDashboard, line 54. -/
def billsTotal (bills : List Bill) : ℚ :=
  bills.foldl (fun total b => total + b.amount) 0

/-- The transactions reduce from updateDashboard, line 55. -/
def txnsTotal (txns : List Txn) : ℚ :=
  txns.foldl (fun total t => total + t.amount) 0

/-- monthlyExpenses from updateDashboard, line 55: bills plus every
stored transaction, with no date filter. -/
def monthlyExpenses (bills : List Bill) (txns : List Txn) : ℚ :=
  billsTotal bills + txnsTotal txns

/-- monthlySurplus from updateDashboard, line 56. -/
def monthlySurplus (s : Salaries) (bills : List Bill) (txns : List Txn) : ℚ :=
  monthlyIncome s - monthlyExpenses bills txns

/-- Rounding to one decimal place, the effect of toFixed(1) on line 57. -/
def roundTo1 (x : ℚ) : ℚ := (round (x * 10) : ℤ) / 10

/-- savingsRate from updateDashboard, line 57: guarded by income > 0. -/
def savingsRate (s : Salaries) (bills : List Bill) (txns : List Txn) : ℚ :=
  if monthlyIncome s > 0 then
    roundTo1 (monthlySurplus s bills txns / monthlyIncome s * 100)
  else 0

/-- The four dashboard figures computed by updateDashboard lines 53-57. -/
structure DashboardStats where
  totalIncome : ℚ
  totalExpenses : ℚ
  surplus : ℚ
  rate : ℚ
  deriving DecidableEq

/-- updateDashboard from src/script.js lines 47-72, restricted to the
figures it computes (the DOM writes are presentation). -/
def updateDashboard (s : Salaries) (bills : List Bill) (txns : List Txn) :
    DashboardStats :=
  { totalIncome := monthlyIncome s
    totalExpenses := monthlyExpenses bills txns
    surplus := monthlySurplus s bills txns
    rate := savingsRate s bills txns }

/-- Drop whitespace from both ends of a character list. -/
def trimChars (l : List Char) : List Char :=
  ((l.dropWhile Char.isWhitespace).reverse.dropWhile Char.isWhitespace).reverse

/-- The JavaScript value.trim() call, as an executable function. -/
def jsTrim (s : String) : String := ⟨trimChars s.data⟩

/-- saveExpense from src/script.js lines 174-195: trim the description,
coerce an unparsable amount to 0, reject when the description is empty or
the amount is not positive, otherwise append one record. -/
def saveExpense (txns : List Txn) (descRaw : String) (amountInput : Option ℚ)
    (newId : ℕ) (now : ℕ) : List Txn :=
  let description := jsTrim descRaw
  let amount := amountInput.getD 0
  if description = "" ∨ amount ≤ 0 then txns
  else txns ++ [⟨newId, description, amount, now⟩]

/-- saveBill from src/script.js lines 208-230: the due day input is
parsed with parseInt and the value-or-15 idiom maps an unparsable or
zero result to 15; only the name and the amount are validated, the due
day is stored as parsed with no range check. -/
def saveBill (bills : List Bill) (nameRaw : String) (amountInput : Option ℚ)
    (dueInput : Option ℤ) (newId : ℕ) : List Bill :=
  let name := jsTrim nameRaw
  let amount := amountInput.getD 0
  let dueDay : ℤ :=
    match dueInput with
    | some d => if d = 0 then 15 else d
    | none => 15
  if name = "" ∨ amount ≤ 0 then bills
  else bills ++ [⟨newId, name, amount, dueDay⟩]

/-- Replace the amount of the first bill carrying the given id, the
mutation performed by editBill on the object returned by find. -/
def updateFirstAmount : List Bill → ℕ → ℚ → List Bill
  | [], _, _ => []
  | b :: rest, billId, a =>
      if b.id = billId then ⟨b.id, b.name, a, b.dueDay⟩ :: rest
      else b :: updateFirstAmount rest billId a

/-- editBill from src/script.js lines 239-251: when no bill carries the
id, or the prompt is cancelled or unparsable (none), the store is left
unchanged; otherwise only the amount of the found bill is replaced. -/
def editBill (bills : List Bill) (billId : ℕ) (input : Option ℚ) : List Bill :=
  match bills.find? (fun b => b.id = billId), input with
  | none, _ => bills
  | some _, none => bills
  | some _, some a => updateFirstAmount bills billId a

/-- The test !value || parsed <= 0 of the React cards: note that an
unparsable input (NaN) compares false and therefore passes. -/
def badAmount : Option ℚ → Bool
  | some v => v ≤ 0
  | none => false

/-- The test !value || parsed < 1 || parsed > 31 of EditableBillCard:
again NaN compares false on both sides and passes. -/
def badDueDay : Option ℤ → Bool
  | some d => d < 1 || 31 < d
  | none => false

/-- handleUpdateSalary from EditableSalaryCard.js lines 14-24: the
request payload sent, or none when validation stops the call.  The Bool
argument records whether the raw input string is non-empty. -/
def handleUpdateSalary (nonempty : Bool) (parsed : Option ℚ) :
    Option (Option ℚ) :=
  if !nonempty || badAmount parsed then none else some parsed

/-- handleUpdateBill from EditableBillCard.js lines 14-30: amount checked
first, then the due day range; either failure stops the request. -/
def handleUpdateBill (amtNonempty : Bool) (amt : Option ℚ)
    (dueNonempty : Bool) (due : Option ℤ) : Option (Option ℚ × Option ℤ) :=
  if !amtNonempty || badAmount amt then none
  else if !dueNonempty || badDueDay due then none
  else some (amt, due)

/-- Whether a timestamp lies inside a stated period, used only by the
specification-side expense formula below. -/
def inPeriod (lo hi d : ℕ) : Bool := lo ≤ d && d ≤ hi

/-- Per the words of the specification: total expenses are the bills
plus only the transactions dated within the period.  This definition
exists to be compared with monthlyExpenses, which is the code. -/
def totalExpensesSpec (bills : List Bill) (txns : List Txn) (lo hi : ℕ) : ℚ :=
  (bills.map Bill.amount).sum +
    ((txns.filter (fun t => inPeriod lo hi t.date)).map Txn.amount).sum

/-- recentTransactions: the slice(-10).reverse() view built by
updateTransactionsDisplay in src/script.js lines 102-120. -/
def recentTransactions (txns : List Txn) : List Txn :=
  (txns.drop (txns.length - 10)).reverse

/-- updateTransactionsDisplay reads the store and renders a view; the
pair returned is the store afterwards together with the rendered list. -/
def updateTransactionsDisplay (txns : List Txn) : List Txn × List Txn :=
  (txns, recentTransactions txns)

/-- The states the transactions store can reach: it starts empty
(initializeData, src/script.js lines 32-34) and grows only through
saveExpense, the sole writer of that store. -/
inductive ReachableTxns : List Txn → Prop
  | init : ReachableTxns []
  | step (s : List Txn) (d : String) (a : Option ℚ) (i n : ℕ) :
      ReachableTxns s → ReachableTxns (saveExpense s d a i n)

/-- Modelled from the spec: the agenda endpoint of the backend is not
among the sources (only its caller AgendaView.js is), so the date logic
of section 4.4 is embedded here.  A simplified calendar date: an
absolute month index and a day of that month. -/
structure SDate where
  month : ℕ
  day : ℕ
  deriving DecidableEq

/-- Modelled from the spec: a bill as the agenda sees it, carrying the
active flag and the day-of-month of section 3. -/
structure ABill where
  id : ℕ
  name : String
  expectedAmount : ℚ
  dueDay : ℕ
  active : Bool
  deriving DecidableEq

/-- Absolute day number of a date, given the length of every month. -/
def absDay (dim : ℕ → ℕ) (d : SDate) : ℕ :=
  ((List.range d.month).map dim).sum + d.day

/-- Modelled from the spec: the next occurrence of a due day.  The due
day is clamped to the length of the month (section 3); when the clamped
day has already passed this month, next month is used (section 4.4). -/
def nextDue (dim : ℕ → ℕ) (today : SDate) (dueDay : ℕ) : SDate :=
  let c := min dueDay (dim today.month)
  if today.day ≤ c then ⟨today.month, c⟩
  else ⟨today.month + 1, min dueDay (dim (today.month + 1))⟩

/-- Insert a bill into a list ascending by the given key. -/
def insertByKey (key : ABill → ℕ) (b : ABill) : List ABill → List ABill
  | [] => [b]
  | x :: xs => if key b ≤ key x then b :: x :: xs else x :: insertByKey key b xs

/-- Sort bills ascending by the given key. -/
def sortByKey (key : ABill → ℕ) : List ABill → List ABill
  | [] => []
  | x :: xs => insertByKey key x (sortByKey key xs)

/-- Modelled from the spec, section 4.4: the upcoming-bills half of
computeAgenda.  Active bills whose next due date falls within the
window of the stated number of days, ascending by due date. -/
def computeAgenda (dim : ℕ → ℕ) (today : SDate) (days : ℕ)
    (bills : List ABill) : List ABill :=
  sortByKey (fun b => absDay dim (nextDue dim today b.dueDay))
    ((bills.filter (fun b => b.active)).filter
      (fun b => absDay dim (nextDue dim today b.dueDay) ≤ absDay dim today + days))

/-- A 30-day calendar used by concrete instances below. -/
def dim30 : ℕ → ℕ := fun _ => 30

/-- The key list of the salaries object. -/
def keys (s : Salaries) : List String := s.map Prod.fst

/-! Lemmas about the salaries store. -/

lemma getSalary_isSome_iff_mem_keys (s : Salaries) (u : String) :
    (getSalary s u).isSome ↔ u ∈ keys s := by
  induction s with
  | nil => simp [getSalary, keys]
  | cons p rest ih =>
      by_cases hp : p.1 = u
      · simp [getSalary, keys, hp]
      · simp [getSalary, keys, hp, ih, Ne.symm hp]

lemma getSalary_map_overwrite_self (s : Salaries) (u : String) (a : ℚ)
    (h : (getSalary s u).isSome) :
    getSalary (s.map (fun p => if p.1 = u then (u, a) else p)) u = some a := by
  induction s with
  | nil => simp [getSalary] at h
  | cons p rest ih =>
      by_cases hp : p.1 = u
      · simp [getSalary, hp]
      · simp [getSalary, hp] at h ⊢
        exact ih h

lemma getSalary_map_overwrite_other (s : Salaries) (u v : String) (a : ℚ)
    (hvu : v ≠ u) :
    getSalary (s.map (fun p => if p.1 = u then (u, a) else p)) v = getSalary s v := by
  induction s with
  | nil => simp [getSalary]
  | cons p rest ih =>
      by_cases hp : p.1 = u
      · simp [getSalary, hp, Ne.symm hvu, ih]
      · by_cases hv : p.1 = v
        · simp [getSalary, hp, hv, hvu]
        · simp [getSalary, hp, hv, ih]

lemma getSalary_append_single (s : Salaries) (u v : String) (a : ℚ)
    (hs : getSalary s v = none) :
    getSalary (s ++ [(u, a)]) v = if u = v then some a else none := by
  induction s with
  | nil => simp [getSalary]
  | cons p rest ih =>
      by_cases hp : p.1 = v
      · simp [getSalary, hp] at hs
      · simp [getSalary, hp] at hs ⊢
        exact ih hs

lemma getSalary_setSalary_self (s : Salaries) (u : String) (a : ℚ) :
    getSalary (setSalary s u a) u = some a := by
  unfold setSalary
  by_cases h : (getSalary s u).isSome
  · simpa [h] using getSalary_map_overwrite_self s u a h
  · have hn : getSalary s u = none := by
      cases hg : getSalary s u with
      | none => rfl
      | some x => rw [hg] at h; simp at h
    simp [h, getSalary_append_single s u u a hn]

lemma getSalary_append_single_ne (s : Salaries) (u v : String) (a : ℚ)
    (hvu : v ≠ u) :
    getSalary (s ++ [(u, a)]) v = getSalary s v := by
  induction s with
  | nil => simp [getSalary, Ne.symm hvu]
  | cons p rest ih =>
      by_cases hp : p.1 = v
      · simp [getSalary, hp]
      · simp [getSalary, hp, ih]

lemma getSalary_setSalary_other (s : Salaries) (u v : String) (a : ℚ)
    (hvu : v ≠ u) :
    getSalary (setSalary s u a) v = getSalary s v := by
  unfold setSalary
  by_cases h : (getSalary s u).isSome
  · simpa [h] using getSalary_map_overwrite_other s u v a hvu
  · simpa [h] using getSalary_append_single_ne s u v a hvu

lemma keys_setSalary (s : Salaries) (u : String) (a : ℚ) :
    keys (setSalary s u a) = if (getSalary s u).isSome then keys s else keys s ++ [u] := by
  unfold setSalary
  by_cases h : (getSalary s u).isSome
  · simp only [h, if_true]
    unfold keys
    rw [List.map_map]
    refine List.map_congr_left ?_
    intro p _
    by_cases hp : p.1 = u <;> simp [hp, Function.comp]
  · simp [h, keys]

lemma keys_setSalary_nodup (s : Salaries) (u : String) (a : ℚ)
    (hnd : (keys s).Nodup) : (keys (setSalary s u a)).Nodup := by
  rw [keys_setSalary]
  by_cases h : (getSalary s u).isSome
  · simpa [h] using hnd
  · have hu : u ∉ keys s := by
      rw [← getSalary_isSome_iff_mem_keys]
      simpa using h
    simp [h, List.nodup_append, hnd, hu]

lemma filter_key_length_le_one (s : Salaries) (u : String)
    (hnd : (keys s).Nodup) :
    (s.filter (fun p => p.1 = u)).length ≤ 1 := by
  induction s with
  | nil => simp
  | cons p rest ih =>
      have hnd' : (keys rest).Nodup := (List.nodup_cons.mp hnd).2
      have hpn : p.1 ∉ keys rest := (List.nodup_cons.mp hnd).1
      by_cases hp : p.1 = u
      · have hempty : rest.filter (fun q => decide (q.1 = u)) = [] := by
          rw [List.filter_eq_nil_iff]
          intro q hq
          simp only [decide_eq_true_eq]
          intro hqu
          exact hpn (hp ▸ hqu ▸ List.mem_map_of_mem Prod.fst hq)
        simp [List.filter_cons, hp, hempty]
      · simpa [List.filter_cons, hp] using ih hnd'

lemma getSalary_applySalaryUpdates_other (as : List ℚ) (s : Salaries)
    (u v : String) (hvu : v ≠ u) :
    getSalary (applySalaryUpdates s u as) v = getSalary s v := by
  induction as generalizing s with
  | nil => simp [applySalaryUpdates]
  | cons a rest ih =>
      simp only [applySalaryUpdates, List.foldl_cons] at ih ⊢
      rw [ih]
      exact getSalary_setSalary_other s u v a hvu

lemma keys_applySalaryUpdates_nodup (as : List ℚ) (s : Salaries) (u : String)
    (hnd : (keys s).Nodup) : (keys (applySalaryUpdates s u as)).Nodup := by
  induction as generalizing s with
  | nil => simpa [applySalaryUpdates]
  | cons a rest ih =>
      simp only [applySalaryUpdates, List.foldl_cons] at ih ⊢
      exact ih _ (keys_setSalary_nodup s u a hnd)

lemma getSalary_applySalaryUpdates_last (as : List ℚ) (s : Salaries)
    (u : String) (hne : as ≠ []) :
    getSalary (applySalaryUpdates s u as) u = some (as.getLast hne) := by
  induction as generalizing s with
  | nil => exact absurd rfl hne
  | cons a rest ih =>
      cases rest with
      | nil =>
          simp [applySalaryUpdates, saveSalary, getSalary_setSalary_self]
      | cons b t =>
          have h2 : (b :: t) ≠ ([] : List ℚ) := by simp
          rw [List.getLast_cons h2]
          simpa only [applySalaryUpdates, List.foldl_cons] using
            ih (setSalary s u a) h2

/-! Claim theorems. -/

/-- Claim C1: after any non-empty sequence of salary updates for a user,
the stored income attributable to that user and the contribution of that
user to the aggregated monthly income both equal the last amount alone,
never the sum of the amounts, and at most one salary record exists for
that user in the store. -/
theorem salary_updates_last_write_wins (s : Salaries) (u : String)
    (as : List ℚ) (hne : as ≠ []) (hnd : (keys s).Nodup) :
    getSalary (applySalaryUpdates s u as) u = some (as.getLast hne) ∧
    ((applySalaryUpdates s u as).filter (fun p => p.1 = u)).length ≤ 1 ∧
    monthlyIncome (applySalaryUpdates s u as) =
      (if "harish" = u then as.getLast hne else incomeAttributable s "harish") +
      (if "durga" = u then as.getLast hne else incomeAttributable s "durga") := by
  have hlast := getSalary_applySalaryUpdates_last as s u hne
  refine ⟨hlast, ?_, ?_⟩
  · exact filter_key_length_le_one _ u (keys_applySalaryUpdates_nodup as s u hnd)
  · have hattr : ∀ v : String,
        incomeAttributable (applySalaryUpdates s u as) v =
          if v = u then as.getLast hne else incomeAttributable s v := by
      intro v
      by_cases hv : v = u
      · simp [incomeAttributable, hv, hlast]
      · simp [incomeAttributable, hv,
          getSalary_applySalaryUpdates_other as s u v hv]
    unfold monthlyIncome
    rw [hattr "harish", hattr "durga"]

/-- Witness for C1: the scenario of the spec, updates 4200, 3000, 4500
for harish starting from the default store. -/
theorem salary_updates_last_write_wins_witness :
    getSalary (applySalaryUpdates [("harish", 3200), ("durga", 2800)]
        "harish" [4200, 3000, 4500]) "harish" = some 4500 ∧
    ((applySalaryUpdates [("harish", 3200), ("durga", 2800)]
        "harish" [4200, 3000, 4500]).filter (fun p => p.1 = "harish")).length ≤ 1 ∧
    monthlyIncome (applySalaryUpdates [("harish", 3200), ("durga", 2800)]
        "harish" [4200, 3000, 4500]) = 4500 + 2800 := by
  have h := salary_updates_last_write_wins [("harish", 3200), ("durga", 2800)]
    "harish" [4200, 3000, 4500] (by simp) (by simp [keys])
  simpa [incomeAttributable, getSalary] using h

/-- Claim C2 counterexample: saveSalary of the standalone variant does
not reject a negative amount; the write is committed and the store
changes. -/
theorem saveSalary_commits_negative_amount :
    saveSalary [("harish", 3200)] "harish" (some (-5)) ≠ [("harish", 3200)] := by
  simp [saveSalary, setSalary, getSalary]
  norm_num

/-- Claim C2 amended: the React salary card rejects an empty input or an
input parsing to a non-positive amount and issues no request, but the
standalone saveSalary validates nothing: it commits the write for any
parsed amount, non-positive included. -/
theorem salary_validation_client_side_only (s : Salaries) (u : String)
    (v : ℚ) (hv : v ≤ 0) :
    handleUpdateSalary true (some v) = none ∧
    handleUpdateSalary false none = none ∧
    getSalary (saveSalary s u (some v)) u = some v := by
  refine ⟨?_, ?_, ?_⟩
  · simp [handleUpdateSalary, badAmount, hv]
  · simp [handleUpdateSalary]
  · simpa [saveSalary] using getSalary_setSalary_self s u v

/-- Witness for the amended C2 at a concrete non-positive amount. -/
theorem salary_validation_client_side_only_witness :
    handleUpdateSalary true (some (-5)) = none ∧
    handleUpdateSalary false none = none ∧
    getSalary (saveSalary [] "harish" (some (-5))) "harish" = some (-5) :=
  salary_validation_client_side_only [] "harish" (-5) (by norm_num)

/-- Folding addition of a projection equals the initial value plus the
sum of the mapped list. -/
lemma foldl_add_map_sum {α : Type} (f : α → ℚ) (l : List α) (init : ℚ) :
    l.foldl (fun t x => t + f x) init = init + (l.map f).sum := by
  induction l generalizing init with
  | nil => simp
  | cons x xs ih => simp [ih]; ring

/-- Claim C3 counterexample: a transaction dated outside the period is
still counted by the aggregator, so monthlyExpenses differs from the
period-filtered figure the specification describes. -/
theorem monthlyExpenses_counts_out_of_period_txn :
    monthlyExpenses [] [⟨1, "Old", 10, 5⟩] ≠
      totalExpensesSpec [] [⟨1, "Old", 10, 5⟩] 100 130 := by
  simp [monthlyExpenses, billsTotal, txnsTotal, totalExpensesSpec, inPeriod]

/-- Claim C3 amended: the aggregated total expenses equal the sum of all
stored bill amounts plus the sum of all stored transaction amounts; no
period filter is applied to transactions and there is no bill link or
active flag in the store. -/
theorem monthlyExpenses_sums_all (bills : List Bill) (txns : List Txn) :
    monthlyExpenses bills txns =
      (bills.map Bill.amount).sum + (txns.map Txn.amount).sum := by
  unfold monthlyExpenses billsTotal txnsTotal
  rw [foldl_add_map_sum, foldl_add_map_sum]
  ring

/-- Claim C4: the savings rate equals the surplus divided by the income,
times 100, rounded to one decimal place, whenever the income is
positive, and equals 0 when the income is 0; the computation is a total
function of the store (no NaN, no error). -/
theorem savingsRate_rounded_or_zero (s : Salaries) (bills : List Bill)
    (txns : List Txn) :
    (0 < monthlyIncome s →
      savingsRate s bills txns =
        roundTo1 (monthlySurplus s bills txns / monthlyIncome s * 100)) ∧
    (monthlyIncome s = 0 → savingsRate s bills txns = 0) := by
  constructor
  · intro h
    simp [savingsRate, h]
  · intro h
    simp [savingsRate, h]

/-- Witness for C4: the default store has positive income and the empty
store has zero income. -/
theorem savingsRate_rounded_or_zero_witness :
    (0 < monthlyIncome [("harish", 3200), ("durga", 2800)] ∧
      savingsRate [("harish", 3200), ("durga", 2800)] [] [] =
        roundTo1 (monthlySurplus [("harish", 3200), ("durga", 2800)] [] [] /
          monthlyIncome [("harish", 3200), ("durga", 2800)] * 100)) ∧
    (monthlyIncome [] = 0 ∧ savingsRate [] [] [] = 0) := by
  have hpos : 0 < monthlyIncome [("harish", 3200), ("durga", 2800)] := by
    simp [monthlyIncome, incomeAttributable, getSalary]
    norm_num
  have hzero : monthlyIncome [] = 0 := by
    simp [monthlyIncome, incomeAttributable, getSalary]
  exact ⟨⟨hpos, (savingsRate_rounded_or_zero _ [] []).1 hpos⟩,
    ⟨hzero, (savingsRate_rounded_or_zero _ [] []).2 hzero⟩⟩

/-- Claim C5: on an empty store the dashboard computation succeeds and
every figure, the savings rate included, is zero. -/
theorem updateDashboard_empty_all_zero :
    updateDashboard [] [] [] =
      { totalIncome := 0, totalExpenses := 0, surplus := 0, rate := 0 } := by
  simp [updateDashboard, monthlyIncome, incomeAttributable, getSalary,
    monthlyExpenses, billsTotal, txnsTotal, monthlySurplus, savingsRate]

/-- Claim C6 counterexample: saveBill accepts a due day of 45, out of
the range 1 to 31, creating the bill with that due day instead of
failing with InvalidDueDay. -/
theorem saveBill_accepts_out_of_range_due_day :
    saveBill [] "X" (some 10) (some 45) 1 =
      [{ id := 1, name := "X", amount := 10, dueDay := 45 }] := by
  simp [saveBill, jsTrim, trimChars]

/-- Claim C6 amended: the standalone saveBill performs no due-day range
check: any positive parsed integer, out-of-range included, is stored
unchanged, and a zero or unparsable due day silently defaults to 15;
only the React bill card rejects a parsed due day outside 1 to 31,
issuing no request. -/
theorem bill_due_day_validation_client_side_only (bills : List Bill)
    (nameRaw : String) (amt : ℚ) (d : ℤ) (newId : ℕ)
    (hname : jsTrim nameRaw ≠ "") (hamt : 0 < amt) :
    (1 ≤ d →
      saveBill bills nameRaw (some amt) (some d) newId =
        bills ++ [{ id := newId, name := jsTrim nameRaw, amount := amt, dueDay := d }]) ∧
    (saveBill bills nameRaw (some amt) none newId =
      bills ++ [{ id := newId, name := jsTrim nameRaw, amount := amt, dueDay := 15 }]) ∧
    ((d < 1 ∨ 31 < d) →
      handleUpdateBill true (some amt) true (some d) = none) := by
  have hguard : ¬(jsTrim nameRaw = "" ∨ amt ≤ 0) := by
    push_neg
    exact ⟨hname, hamt⟩
  refine ⟨?_, ?_, ?_⟩
  · intro hd
    have hdz : d ≠ 0 := by omega
    simp [saveBill, hguard, hname, not_le.mpr hamt, hdz]
  · simp [saveBill, hname, not_le.mpr hamt]
  · intro hd
    have : badDueDay (some d) = true := by
      simp only [badDueDay, Bool.or_eq_true, decide_eq_true_eq]
      omega
    simp [handleUpdateBill, badAmount, not_le.mpr hamt, this]

/-- Witness for the amended C6 at a concrete out-of-range due day. -/
theorem bill_due_day_validation_client_side_only_witness :
    saveBill [] "Rent" (some 10) (some 45) 1 =
      [{ id := 1, name := "Rent", amount := 10, dueDay := 45 }] ∧
    saveBill [] "Rent" (some 10) none 1 =
      [{ id := 1, name := "Rent", amount := 10, dueDay := 15 }] ∧
    handleUpdateBill true (some 10) true (some 45) = none := by
  have h := bill_due_day_validation_client_side_only [] "Rent" 10 45 1
    (by decide) (by norm_num)
  refine ⟨?_, ?_, h.2.2 (by norm_num)⟩
  · have h1 := h.1 (by norm_num)
    simpa [(by decide : jsTrim "Rent" = "Rent")] using h1
  · have h2 := h.2.1
    simpa [(by decide : jsTrim "Rent" = "Rent")] using h2

/-- The composite of the overwrite map with the id projection is the id
projection itself, so updating an amount never changes the id list. -/
lemma updateFirstAmount_of_nodup (bills : List Bill) (i : ℕ) (a : ℚ)
    (hnd : (bills.map Bill.id).Nodup) :
    updateFirstAmount bills i a =
      bills.map (fun x => if x.id = i then ⟨x.id, x.name, a, x.dueDay⟩ else x) := by
  induction bills with
  | nil => simp [updateFirstAmount]
  | cons b rest ih =>
      have hnd' : (rest.map Bill.id).Nodup := (List.nodup_cons.mp hnd).2
      have hbn : b.id ∉ rest.map Bill.id := (List.nodup_cons.mp hnd).1
      by_cases hb : b.id = i
      · have hrest : rest.map
            (fun x => if x.id = i then (⟨x.id, x.name, a, x.dueDay⟩ : Bill) else x) =
            rest := by
          have hcongr : rest.map
              (fun x => if x.id = i then (⟨x.id, x.name, a, x.dueDay⟩ : Bill) else x) =
              rest.map id := by
            refine List.map_congr_left ?_
            intro x hx
            have : x.id ≠ i := by
              intro hxi
              exact hbn (hb ▸ hxi ▸ List.mem_map_of_mem Bill.id hx)
            simp [this]
          rw [hcongr, List.map_id]
        simp [updateFirstAmount, hb, hrest]
      · simp [updateFirstAmount, hb, ih hnd']

/-- Claim C7: a partial update supplying only a new amount for one bill
leaves the due day, name and id of that bill unchanged, sets its amount
to the new value, and leaves every other bill in the store untouched. -/
theorem editBill_amount_only_frame (bills : List Bill) (b : Bill) (a : ℚ)
    (hnd : (bills.map Bill.id).Nodup) (hb : b ∈ bills) :
    editBill bills b.id (some a) =
      bills.map (fun x => if x.id = b.id then ⟨x.id, x.name, a, x.dueDay⟩ else x) ∧
    (⟨b.id, b.name, a, b.dueDay⟩ : Bill) ∈ editBill bills b.id (some a) ∧
    (∀ x ∈ bills, x.id ≠ b.id → x ∈ editBill bills b.id (some a)) ∧
    (editBill bills b.id (some a)).length = bills.length := by
  have hfind : (bills.find? (fun x => x.id = b.id)).isSome := by
    rw [List.find?_isSome]
    exact ⟨b, hb, by simp⟩
  have heq : editBill bills b.id (some a) =
      bills.map (fun x => if x.id = b.id then ⟨x.id, x.name, a, x.dueDay⟩ else x) := by
    unfold editBill
    cases hf : bills.find? (fun x => x.id = b.id) with
    | none => rw [hf] at hfind; simp at hfind
    | some c => exact updateFirstAmount_of_nodup bills b.id a hnd
  refine ⟨heq, ?_, ?_, ?_⟩
  · rw [heq]
    have := List.mem_map_of_mem
      (fun x => if x.id = b.id then (⟨x.id, x.name, a, x.dueDay⟩ : Bill) else x) hb
    simpa using this
  · intro x hx hxi
    rw [heq]
    have := List.mem_map_of_mem
      (fun y => if y.id = b.id then (⟨y.id, y.name, a, y.dueDay⟩ : Bill) else y) hx
    simpa [hxi] using this
  · rw [heq, List.length_map]

/-- Witness for C7: the electricity bill amount changed from 95 to 100
with the due day omitted; the due day stays 15 and the water bill is
untouched. -/
theorem editBill_amount_only_frame_witness :
    (⟨1, "Electricity Bill", 100, 15⟩ : Bill) ∈
      editBill [⟨1, "Electricity Bill", 95, 15⟩, ⟨2, "Water Bill", 30, 5⟩] 1 (some 100) ∧
    (⟨2, "Water Bill", 30, 5⟩ : Bill) ∈
      editBill [⟨1, "Electricity Bill", 95, 15⟩, ⟨2, "Water Bill", 30, 5⟩] 1 (some 100) ∧
    (editBill [⟨1, "Electricity Bill", 95, 15⟩, ⟨2, "Water Bill", 30, 5⟩]
      1 (some 100)).length = 2 := by
  have h := editBill_amount_only_frame
    [⟨1, "Electricity Bill", 95, 15⟩, ⟨2, "Water Bill", 30, 5⟩]
    ⟨1, "Electricity Bill", 95, 15⟩ 100 (by simp) (by simp)
  exact ⟨h.2.1, h.2.2.1 ⟨2, "Water Bill", 30, 5⟩ (by simp) (by simp), h.2.2.2⟩

/-- Claim C9: the recent-transactions view shows the most recent
min(10, length) stored transactions; when the store is ascending by
date, the view is descending by date; rendering returns the store
itself unchanged, so no stored total can change. -/
theorem recentTransactions_view (txns : List Txn) :
    (recentTransactions txns).length = min 10 txns.length ∧
    (recentTransactions txns).reverse <:+ txns ∧
    (txns.Pairwise (fun a b => a.date ≤ b.date) →
      (recentTransactions txns).Pairwise (fun a b => b.date ≤ a.date)) ∧
    (updateTransactionsDisplay txns).1 = txns := by
  refine ⟨?_, ?_, ?_, rfl⟩
  · simp only [recentTransactions, List.length_reverse, List.length_drop]
    omega
  · rw [recentTransactions, List.reverse_reverse]
    exact List.drop_suffix _ _
  · intro h
    rw [recentTransactions, List.pairwise_reverse]
    exact List.Pairwise.sublist (List.drop_sublist _ _) h

/-- Witness for C9 on a concrete three-element store ascending by date. -/
theorem recentTransactions_view_witness :
    (recentTransactions [⟨1, "a", 1, 1⟩, ⟨2, "b", 1, 2⟩, ⟨3, "c", 1, 3⟩]).length =
      min 10 3 ∧
    ([⟨1, "a", 1, 1⟩, ⟨2, "b", 1, 2⟩, ⟨3, "c", 1, 3⟩] : List Txn).Pairwise
      (fun a b => a.date ≤ b.date) ∧
    (recentTransactions [⟨1, "a", 1, 1⟩, ⟨2, "b", 1, 2⟩, ⟨3, "c", 1, 3⟩]).Pairwise
      (fun a b => b.date ≤ a.date) ∧
    (updateTransactionsDisplay [⟨1, "a", 1, 1⟩, ⟨2, "b", 1, 2⟩, ⟨3, "c", 1, 3⟩]).1 =
      [⟨1, "a", 1, 1⟩, ⟨2, "b", 1, 2⟩, ⟨3, "c", 1, 3⟩] := by
  have hsorted : ([⟨1, "a", 1, 1⟩, ⟨2, "b", 1, 2⟩, ⟨3, "c", 1, 3⟩] : List Txn).Pairwise
      (fun a b => a.date ≤ b.date) := by
    simp [List.pairwise_cons]
  have h := recentTransactions_view [⟨1, "a", 1, 1⟩, ⟨2, "b", 1, 2⟩, ⟨3, "c", 1, 3⟩]
  exact ⟨h.1, hsorted, h.2.2.1 hsorted, h.2.2.2⟩

/-- Claim C10: every reachable state of the transactions store contains
only records with a positive amount and a non-empty description, because
saveExpense, the sole writer, rejects anything else before appending. -/
theorem reachableTxns_records_valid (s : List Txn) (h : ReachableTxns s) :
    ∀ t ∈ s, 0 < t.amount ∧ t.description ≠ "" := by
  induction h with
  | init => simp
  | step s d a i n _ ih =>
      intro t ht
      by_cases hg : jsTrim d = "" ∨ a.getD 0 ≤ 0
      · rw [saveExpense, if_pos hg] at ht
        exact ih t ht
      · rw [saveExpense, if_neg hg] at ht
        push_neg at hg
        rcases List.mem_append.mp ht with hin | hnew
        · exact ih t hin
        · rcases List.mem_singleton.mp hnew with rfl
          exact ⟨hg.2, hg.1⟩

/-- Witness for C10: the coffee expense appended to the empty store is a
reachable record with positive amount and non-empty description. -/
theorem reachableTxns_records_valid_witness :
    0 < (⟨1, "Coffee", 5, 2⟩ : Txn).amount ∧
    (⟨1, "Coffee", 5, 2⟩ : Txn).description ≠ "" := by
  have hr : ReachableTxns (saveExpense [] "Coffee" (some 5) 1 2) :=
    ReachableTxns.step [] "Coffee" (some 5) 1 2 ReachableTxns.init
  refine reachableTxns_records_valid _ hr _ ?_
  have : saveExpense [] "Coffee" (some 5) 1 2 = [⟨1, "Coffee", 5, 2⟩] := by
    simp [saveExpense, jsTrim, trimChars]
  rw [this]
  simp

/-- Membership is invariant under ordered insertion. -/
lemma mem_insertByKey (key : ABill → ℕ) (b x : ABill) (l : List ABill) :
    x ∈ insertByKey key b l ↔ x = b ∨ x ∈ l := by
  induction l with
  | nil => simp [insertByKey]
  | cons y ys ih =>
      by_cases h : key b ≤ key y
      · simp [insertByKey, h]
      · simp [insertByKey, h, ih]
        tauto

/-- Membership is invariant under sorting. -/
lemma mem_sortByKey (key : ABill → ℕ) (x : ABill) (l : List ABill) :
    x ∈ sortByKey key l ↔ x ∈ l := by
  induction l with
  | nil => simp [sortByKey]
  | cons y ys ih => simp [sortByKey, mem_insertByKey, ih]

/-- Claim C8: every bill returned by computeAgenda has its next due date
at most the stated number of days after today, and a due day that has
already passed this month is scheduled in the following month: the
window rolls over the month boundary instead of comparing the raw due
day against today. -/
theorem computeAgenda_window_and_rollover :
    (∀ (dim : ℕ → ℕ) (today : SDate) (days : ℕ) (bills : List ABill)
        (b : ABill), b ∈ computeAgenda dim today days bills →
        absDay dim (nextDue dim today b.dueDay) ≤ absDay dim today + days) ∧
    (∀ (dim : ℕ → ℕ) (today : SDate) (dueDay : ℕ), dueDay < today.day →
        (nextDue dim today dueDay).month = today.month + 1) := by
  constructor
  · intro dim today days bills b hmem
    rw [computeAgenda, mem_sortByKey] at hmem
    have := List.of_mem_filter hmem
    simpa using this
  · intro dim today dueDay hlt
    have hmin : min dueDay (dim today.month) ≤ dueDay := Nat.min_le_left _ _
    have hcond : ¬ today.day ≤ min dueDay (dim today.month) := by omega
    simp [nextDue, hcond]

/-- Witness for C8: with 30-day months, today the 20th of month 5 and a
window of 7 days, the bill due on the 25th is returned and is within the
window; a due day of 3 rolls over to month 6. -/
theorem computeAgenda_window_and_rollover_witness :
    ((⟨1, "Rent", 100, 25, true⟩ : ABill) ∈
        computeAgenda dim30 ⟨5, 20⟩ 7 [⟨1, "Rent", 100, 25, true⟩] ∧
      absDay dim30 (nextDue dim30 ⟨5, 20⟩ 25) ≤ absDay dim30 ⟨5, 20⟩ + 7) ∧
    ((3 : ℕ) < 20 ∧ (nextDue dim30 ⟨5, 20⟩ 3).month = 5 + 1) := by
  have hmem : (⟨1, "Rent", 100, 25, true⟩ : ABill) ∈
      computeAgenda dim30 ⟨5, 20⟩ 7 [⟨1, "Rent", 100, 25, true⟩] := by
    simp [computeAgenda, dim30, absDay, nextDue, sortByKey, insertByKey]
  exact ⟨⟨hmem, computeAgenda_window_and_rollover.1 dim30 ⟨5, 20⟩ 7
      [⟨1, "Rent", 100, 25, true⟩] ⟨1, "Rent", 100, 25, true⟩ hmem⟩,
    by norm_num, computeAgenda_window_and_rollover.2 dim30 ⟨5, 20⟩ 3 (by norm_num)⟩

end BudgetApp
